import Mathlib

/-!
Verification of the bt2disk synchronization engine (`bt2disk.go`) against its
natural-language specification.

The Go program saves every cell of a BigTable instance into a sqlite snapshot
(one sqlite table per BigTable table, one row per cell, with an FNV-1a 32-bit
integrity checksum) and restores such a snapshot back into BigTable in bulk
batches of at most 100 mutations.

The embedding below models:
  * the byte stream fed to the FNV-1a hasher, including the fact that string
    fields are written via `fmt.Fprintf(hasher, s)`, i.e. `s` is used as a
    format string (verbs in `s` are expanded to `%!v(MISSING)` because no
    operands are supplied);
  * the save pipeline `SaveTable`/`SaveAll` (drop + create + insert loop over
    the streamed cells, with the column-family qualifier stripped);
  * the restore pipeline `RestoreTable`/`Restore` (per-row checksum check,
    batching at 100, bulk apply, per-item error filtering, destructive clear
    of the remote tables first).

Time formatting (`Format(time.RFC3339Nano)`) is kept abstract as a parameter
`fmtTs : Int → String` taking the Unix-nanosecond value: both pipelines apply
the very same formatting to the very same nanosecond value, which is all the
claims depend on.
-/

/-- UTF-8 encoding of one character, as the bytes Go writes for a string. -/
def charUtf8 (c : Char) : List Nat :=
  let n := c.toNat
  if n < 128 then [n]
  else if n < 2048 then [192 + n / 64, 128 + n % 64]
  else if n < 65536 then [224 + n / 4096, 128 + (n / 64) % 64, 128 + n % 64]
  else [240 + n / 262144, 128 + (n / 4096) % 64, 128 + (n / 64) % 64, 128 + n % 64]

/-- The bytes of a Go string (UTF-8). -/
def strBytes (s : String) : List Nat :=
  s.data.foldr (fun c acc => charUtf8 c ++ acc) []

/-- One step of Go `fmt` format-string scanning with no operands supplied
(used below to model `fmt.Fprintf(hasher, s)`): `%%` emits a literal percent,
a verb (after optional flags, width and precision) emits `%!v(MISSING)`, and a
trailing lone percent emits `%!(NOVERB)`.  `fuel` only bounds the recursion;
it is always called with more fuel than characters. -/
def goExpandAux : Nat → List Char → List Char
  | 0, _ => []
  | _ + 1, [] => []
  | f + 1, c :: rest =>
    if c = '%' then
      match rest with
      | [] => "%!(NOVERB)".data
      | '%' :: rest' => '%' :: goExpandAux f rest'
      | _ =>
        let r1 := rest.dropWhile (fun d => d == '+' || d == '-' || d == '#' || d == ' ' || d == '0')
        let r2 := r1.dropWhile (fun d => d.isDigit)
        let r3 := match r2 with
          | '.' :: r => r.dropWhile (fun d => d.isDigit)
          | _ => r2
        match r3 with
        | [] => "%!(NOVERB)".data
        | v :: r4 => '%' :: '!' :: v :: ("(MISSING)".data ++ goExpandAux f r4)
    else c :: goExpandAux f rest

/-- What `fmt.Fprintf(w, s)` actually writes to `w` for a format string `s`
with no further arguments. -/
def goFmtNoArgs (s : String) : String :=
  ⟨goExpandAux (s.data.length + 1) s.data⟩

/-- The bytes `fmt.Fprintf(hasher, s)` feeds to the hasher. -/
def fprintfBytes (s : String) : List Nat :=
  strBytes (goFmtNoArgs s)

/-- FNV-1a, 32 bit: `hash/fnv.New32a()` followed by writes of the given
bytes and `Sum32()`.  Arithmetic is on `Nat` reduced mod `2^32`. -/
def fnv32a (bs : List Nat) : Nat :=
  bs.foldl (fun h b => ((h ^^^ b) * 16777619) % 4294967296) 2166136261

/-- The byte stream both `SaveTable` and `RestoreTable` feed to the FNV-1a
hasher for one cell: `fmt.Fprintf(hasher, key)`, `fmt.Fprintf(hasher, cf)`,
`fmt.Fprintf(hasher, col)`, `hasher.Write(value)`,
`fmt.Fprintf(hasher, timestamp.Format(time.RFC3339Nano))`. -/
def checksumInput (fmtTs : Int → String) (key cf col : String) (value : List Nat)
    (tsN : Int) : List Nat :=
  fprintfBytes key ++ fprintfBytes cf ++ fprintfBytes col ++ value ++
    fprintfBytes (fmtTs tsN)

/-- Modelled from the spec: the byte stream the specification describes for
the checksum (§3 of the spec: the hash is fed "rowKey, columnFamily, column,
value (raw bytes), timestamp formatted ..."), i.e. every field as its raw
bytes, with no format-string expansion.  Kept separate from `checksumInput`
(which models the source) so the two can be compared. -/
def checksumInputSpec (fmtTs : Int → String) (key cf col : String) (value : List Nat)
    (tsN : Int) : List Nat :=
  strBytes key ++ strBytes cf ++ strBytes col ++ value ++ strBytes (fmtTs tsN)

/-- The per-cell checksum as both pipelines compute it. -/
def computeChecksum (fmtTs : Int → String) (key cf col : String) (value : List Nat)
    (tsN : Int) : Nat :=
  fnv32a (checksumInput fmtTs key cf col value tsN)

/-- `strings.TrimPrefix s p`: remove `p` from the front of `s` when present. -/
def goTrimPfx (s p : String) : String :=
  if p.data.isPrefixOf s.data then ⟨s.data.drop p.data.length⟩ else s

/-- A live cell of the remote (BigTable) store.  `ts` is the BigTable
timestamp in microseconds since the epoch (`bigtable.Timestamp`). -/
structure Cell where
  rowKey : String
  family : String
  column : String
  value : List Nat
  ts : Int
deriving DecidableEq, Repr

/-- One `bigtable.ReadItem` as delivered to the `ReadRows` callback:
`item.Column` is the column qualified with the family name. -/
structure ReadItem where
  row : String
  column : String
  ts : Int
  value : List Nat
deriving DecidableEq, Repr

/-- One row of a sqlite snapshot table:
`(key, column_family, column, value, timestamp, chk)`. -/
structure SnapRow where
  key : String
  cf : String
  col : String
  value : List Nat
  tsN : Int
  chk : Nat
deriving DecidableEq, Repr

/-- The snapshot database: sqlite tables in `sqlite_master` order
(creation order), each with its rows in insertion order. -/
abbrev SnapDB := List (String × List SnapRow)

/-- How the store hands a cell to the save pipeline's callback: the pair
`(columnFamily, ReadItem)` with the qualified column name. -/
def itemOfCell (c : Cell) : String × ReadItem :=
  (c.family, ⟨c.rowKey, c.family ++ ":" ++ c.column, c.ts, c.value⟩)

/-- The body of `SaveTable`'s per-item loop: strip the family qualifier from
`item.Column`, hash the fields, and build the sqlite row (the timestamp is
stored as `item.Timestamp.Time().UnixNano()`, i.e. micros times 1000). -/
def saveRowOf (fmtTs : Int → String) (cf : String) (it : ReadItem) : SnapRow :=
  let col := goTrimPfx it.column (cf ++ ":")
  ⟨it.row, cf, col, it.value, it.ts * 1000,
    computeChecksum fmtTs it.row cf col it.value (it.ts * 1000)⟩

/-- The rows `SaveTable` inserts for a streamed sequence of
`(family, item)` pairs. -/
def saveRows (fmtTs : Int → String) (stream : List (String × ReadItem)) : List SnapRow :=
  stream.map (fun p => saveRowOf fmtTs p.1 p.2)

/-- `DROP TABLE IF EXISTS t`. -/
def dropTableIfExists (db : SnapDB) (t : String) : SnapDB :=
  db.filter (fun p => p.1 ≠ t)

/-- `CREATE TABLE IF NOT EXISTS t (...)`: appended to `sqlite_master` when
absent. -/
def createTableIfNotExists (db : SnapDB) (t : String) : SnapDB :=
  if db.any (fun p => p.1 = t) then db else db ++ [(t, [])]

/-- `INSERT INTO t VALUES (...)`: append the row to table `t`. -/
def insertRow (db : SnapDB) (t : String) (r : SnapRow) : SnapDB :=
  db.map (fun p => if p.1 = t then (p.1, p.2 ++ [r]) else p)

/-- `SaveTable`: drop any pre-existing snapshot table, create it fresh, then
stream every cell and insert one row per cell. -/
def saveTable (fmtTs : Int → String) (db : SnapDB) (t : String)
    (stream : List (String × ReadItem)) : SnapDB :=
  stream.foldl (fun db p => insertRow db t (saveRowOf fmtTs p.1 p.2))
    (createTableIfNotExists (dropTableIfExists db t) t)

/-- Lexicographic order on byte lists. -/
def lexLe : List Nat → List Nat → Bool
  | [], _ => true
  | _ :: _, [] => false
  | x :: xs, y :: ys => if x < y then true else if y < x then false else lexLe xs ys

/-- Go's string order: byte-wise lexicographic comparison. -/
def strLe (a b : String) : Bool := lexLe (strBytes a) (strBytes b)

/-- Insertion step of `sortStrings`. -/
def insertSorted (x : String) : List String → List String
  | [] => [x]
  | y :: ys => if strLe x y then x :: y :: ys else y :: insertSorted x ys

/-- `sort.Strings`: the lexicographically sorted permutation of the list.
(The algorithm is immaterial: duplicate strings are indistinguishable, so
every comparison sort yields this same list.) -/
def sortStrings : List String → List String
  | [] => []
  | x :: xs => insertSorted x (sortStrings xs)

/-- Observable events of a save/restore run, in order: a destructive
`DropAllRows` of a remote table, an invocation of the per-table save
pipeline, an invocation of the per-table restore pipeline, and one
`ApplyBulk` call against a remote table. -/
inductive Ev where
  | dropAll (t : String)
  | saveT (t : String)
  | restoreT (t : String)
  | bulk (t : String)
deriving DecidableEq, Repr

/-- `SaveAll`: list the remote tables, sort them, and run `SaveTable` on each
in that order, recording the invocation order. -/
def saveAll (fmtTs : Int → String) (db : SnapDB) (tables : List String)
    (streams : String → List (String × ReadItem)) : SnapDB × List Ev :=
  (sortStrings tables).foldl
    (fun st t => (saveTable fmtTs st.1 t (streams t), st.2 ++ [Ev.saveT t]))
    (db, [])

/-- A pending `bigtable.Mutation` built by `m.Set(cf, col, bigtable.Time(timestamp), value)`.
`ts` is the BigTable timestamp in microseconds: `bigtable.Time` divides the
Unix-nanosecond value by 1000 (Go integer division truncates toward zero). -/
structure Mut where
  cf : String
  col : String
  ts : Int
  value : List Nat
deriving DecidableEq, Repr

/-- The mutation `RestoreTable` builds for one verified snapshot row. -/
def mutOfRow (r : SnapRow) : Mut :=
  ⟨r.cf, r.col, Int.tdiv r.tsN 1000, r.value⟩

/-- `filterErrors`: keep the non-nil entries of a per-item error slice. -/
def filterErrors : List (Option String) → List String
  | [] => []
  | some e :: rest => e :: filterErrors rest
  | none :: rest => filterErrors rest

/-- The error `RestoreTable` raises on a checksum mismatch
(`"integrity check failed, db.chk=%d, computed hash = %d"`). -/
def integrityErr (stored computed : Nat) : String :=
  "integrity check failed, db.chk=" ++ toString stored ++ ", computed hash = " ++
    toString computed

/-- The error raised when an `ApplyBulk` call itself fails
(`"failed to write to bigtable: %s"`). -/
def applyCallErr (e : String) : String :=
  "failed to write to bigtable: " ++ e

/-- The error raised when an `ApplyBulk` call succeeds but some per-item
results are errors (`"failed to write to bigtable, %d errors, first: %s"`,
formatted from the filtered error list). -/
def bulkWriteErr (errs : List String) : String :=
  "failed to write to bigtable, " ++ toString errs.length ++ " errors, first: " ++
    errs.headD ""

/-- The checksum `RestoreTable` recomputes for one snapshot row from the
fields it scanned back from sqlite. -/
def rowChecksum (fmtTs : Int → String) (r : SnapRow) : Nat :=
  computeChecksum fmtTs r.key r.cf r.col r.value r.tsN

/-- Outcome of one `RestoreTable` run: the returned error (`none` = nil), the
`ApplyBulk` calls issued in order (each with its keys and mutations), and the
row counter `c`. -/
structure RTResult where
  err : Option String
  calls : List (List String × List Mut)
  count : Nat
deriving DecidableEq, Repr

/-- The row loop of `RestoreTable`.  `apply` is the remote store's response
to an `ApplyBulk` call: the per-item error slice and the call-level error.
State: remaining rows, accumulated `keys` and `muts`, counter `c`, and the
calls issued so far. -/
def restoreGo (fmtTs : Int → String)
    (apply : List String → List Mut → List (Option String) × Option String) :
    List SnapRow → List String → List Mut → Nat → List (List String × List Mut) → RTResult
  | [], keys, muts, c, acc =>
    if 0 < muts.length then
      match apply keys muts with
      | (_, some e) => ⟨some (applyCallErr e), acc ++ [(keys, muts)], c⟩
      | (errs, none) =>
        match filterErrors errs with
        | [] => ⟨none, acc ++ [(keys, muts)], c⟩
        | e :: es => ⟨some (bulkWriteErr (e :: es)), acc ++ [(keys, muts)], c⟩
    else ⟨none, acc, c⟩
  | r :: rest, keys, muts, c, acc =>
    if r.chk = rowChecksum fmtTs r then
      let keys' := keys ++ [r.key]
      let muts' := muts ++ [mutOfRow r]
      if muts'.length = 100 then
        match apply keys' muts' with
        | (_, some e) => ⟨some (applyCallErr e), acc ++ [(keys', muts')], c + 1⟩
        | (errs, none) =>
          match filterErrors errs with
          | [] => restoreGo fmtTs apply rest [] [] (c + 1) (acc ++ [(keys', muts')])
          | e :: es => ⟨some (bulkWriteErr (e :: es)), acc ++ [(keys', muts')], c + 1⟩
      else restoreGo fmtTs apply rest keys' muts' (c + 1) acc
    else ⟨some (integrityErr r.chk (rowChecksum fmtTs r)), acc, c⟩

/-- `RestoreTable`: stream the snapshot rows of one table, verify each
checksum, batch mutations, and bulk-apply every 100 plus a final partial
batch. -/
def restoreTable (fmtTs : Int → String)
    (apply : List String → List Mut → List (Option String) × Option String)
    (rows : List SnapRow) : RTResult :=
  restoreGo fmtTs apply rows [] [] 0 []

/-- Go `%q` applied to a table name (no escaping is needed for the names the
claims use). -/
def goQuote (t : String) : String := "\"" ++ t ++ "\""

/-- The clearing loop of `Restore`: `DropAllRows` on each listed table in
order; `dropRes t` is the store's response for table `t`.  Returns the first
error and the successful clear events in order. -/
def dropPhase (dropRes : String → Option String) : List String → Option String × List Ev
  | [] => (none, [])
  | t :: ts =>
    match dropRes t with
    | some _ => (some ("failed to delete table " ++ goQuote t), [])
    | none =>
      let out := dropPhase dropRes ts
      (out.1, Ev.dropAll t :: out.2)

/-- The restore loop of `Restore`: run `RestoreTable` on each snapshot table
in the snapshot store's enumeration order, aborting at the first error. -/
def restorePhase (fmtTs : Int → String)
    (apply : String → List String → List Mut → List (Option String) × Option String) :
    List (String × List SnapRow) → Option String × List Ev
  | [] => (none, [])
  | (t, rows) :: rest =>
    let res := restoreTable fmtTs (apply t) rows
    let tr := Ev.restoreT t :: res.calls.map (fun _ => Ev.bulk t)
    match res.err with
    | some e => (some ("failed to restore table " ++ goQuote t ++ ": " ++ e), tr)
    | none =>
      let out := restorePhase fmtTs apply rest
      (out.1, tr ++ out.2)

/-- `Restore`: list the remote tables, sort them, clear each, then enumerate
the snapshot store's tables (in its native `sqlite_master` order) and restore
each. -/
def restoreRun (fmtTs : Int → String) (remoteTables : List String) (snap : SnapDB)
    (dropRes : String → Option String)
    (apply : String → List String → List Mut → List (Option String) × Option String) :
    Option String × List Ev :=
  match dropPhase dropRes (sortStrings remoteTables) with
  | (some e, tr) => (some e, tr)
  | (none, tr) =>
    let out := restorePhase fmtTs apply snap
    (out.1, tr ++ out.2)

/-- The batching behaviour of the restore loop on verified rows: the full
batches flushed at size 100, and the keys/mutations still pending afterwards.
Used to state which `ApplyBulk` calls a run issues. -/
def accumBatches : List String → List Mut → List SnapRow →
    List (List String × List Mut) × List String × List Mut
  | keys, muts, [] => ([], keys, muts)
  | keys, muts, r :: rest =>
    let keys' := keys ++ [r.key]
    let muts' := muts ++ [mutOfRow r]
    if muts'.length = 100 then
      let out := accumBatches [] [] rest
      ((keys', muts') :: out.1, out.2)
    else accumBatches keys' muts' rest

/-- The `(rowKey, mutation)` pairs of a sequence of `ApplyBulk` calls, in the
order they are applied. -/
def flatPairs (calls : List (List String × List Mut)) : List (String × Mut) :=
  calls.foldr (fun b acc => b.1.zip b.2 ++ acc) []

/-- The cells a sequence of `ApplyBulk` calls writes into an empty remote
table: each applied `(key, mutation)` pair sets one cell. -/
def writtenCells (calls : List (List String × List Mut)) : List Cell :=
  (flatPairs calls).map (fun p => ⟨p.1, p.2.cf, p.2.col, p.2.value, p.2.ts⟩)

/-- Whether an event is an invocation of the per-table restore pipeline. -/
def isRestoreEv : Ev → Bool
  | Ev.restoreT _ => true
  | _ => false

/-- Whether an event is a destructive clear of a remote table. -/
def isDropEv : Ev → Bool
  | Ev.dropAll _ => true
  | _ => false

theorem goTrimPfx_append (p s : String) : goTrimPfx (p ++ s) p = s := by
  have h : p.data.isPrefixOf ((p ++ s).data) = true := by
    rw [String.data_append, List.isPrefixOf_iff_prefix]
    exact List.prefix_append _ _
  simp [goTrimPfx, h, String.data_append, List.drop_left]

theorem saveRowOf_itemOfCell (fmtTs : Int → String) (c : Cell) :
    saveRowOf fmtTs (itemOfCell c).1 (itemOfCell c).2 =
      ⟨c.rowKey, c.family, c.column, c.value, c.ts * 1000,
        computeChecksum fmtTs c.rowKey c.family c.column c.value (c.ts * 1000)⟩ := by
  have h : goTrimPfx (c.family ++ ":" ++ c.column) (c.family ++ ":") = c.column :=
    goTrimPfx_append (c.family ++ ":") c.column
  simp [saveRowOf, itemOfCell, h]

theorem dropTableIfExists_keys (db : SnapDB) (t : String) :
    ∀ p ∈ dropTableIfExists db t, p.1 ≠ t := by
  intro p hp
  have := List.mem_filter.mp hp
  simpa using this.2

theorem createAfterDrop (db : SnapDB) (t : String) :
    createTableIfNotExists (dropTableIfExists db t) t = dropTableIfExists db t ++ [(t, [])] := by
  have h : (dropTableIfExists db t).any (fun p => p.1 = t) = false := by
    rw [List.any_eq_false]
    intro p hp
    simpa using dropTableIfExists_keys db t p hp
  simp [createTableIfNotExists, h]

theorem insertRow_last (d : SnapDB) (t : String) (rs : List SnapRow) (r : SnapRow)
    (hd : ∀ p ∈ d, p.1 ≠ t) :
    insertRow (d ++ [(t, rs)]) t r = d ++ [(t, rs ++ [r])] := by
  unfold insertRow
  rw [List.map_append]
  congr 1
  · calc d.map (fun p => if p.1 = t then (p.1, p.2 ++ [r]) else p)
        = d.map id := List.map_congr_left (fun p hp => if_neg (hd p hp))
      _ = d := List.map_id d
  · simp

theorem saveTable_foldl (fmtTs : Int → String) (t : String) :
    ∀ (stream : List (String × ReadItem)) (d : SnapDB) (rs : List SnapRow),
      (∀ p ∈ d, p.1 ≠ t) →
      stream.foldl (fun db p => insertRow db t (saveRowOf fmtTs p.1 p.2)) (d ++ [(t, rs)]) =
        d ++ [(t, rs ++ saveRows fmtTs stream)] := by
  intro stream
  induction stream with
  | nil => intro d rs _; simp [saveRows]
  | cons p ps ih =>
    intro d rs hd
    rw [List.foldl_cons, insertRow_last d t rs _ hd, ih d _ hd]
    simp [saveRows]

theorem saveTable_eq (fmtTs : Int → String) (db : SnapDB) (t : String)
    (stream : List (String × ReadItem)) :
    saveTable fmtTs db t stream = dropTableIfExists db t ++ [(t, saveRows fmtTs stream)] := by
  unfold saveTable
  rw [createAfterDrop]
  have := saveTable_foldl fmtTs t stream (dropTableIfExists db t) []
    (dropTableIfExists_keys db t)
  simpa using this

/-- C7: `SaveTable` drops any pre-existing snapshot table of the same name and
rebuilds it from scratch from the streamed cells, so running it twice with the
same streamed cells gives a snapshot database identical to the one after the
first run — same rows and same checksums, independent of what was there
before. -/
theorem save_idempotent (fmtTs : Int → String) (db : SnapDB) (t : String)
    (stream : List (String × ReadItem)) :
    saveTable fmtTs (saveTable fmtTs db t stream) t stream = saveTable fmtTs db t stream := by
  rw [saveTable_eq fmtTs db t stream, saveTable_eq]
  congr 1
  unfold dropTableIfExists
  rw [List.filter_append]
  have h2 : List.filter (fun p => decide (p.1 ≠ t)) [((t : String), saveRows fmtTs stream)] = [] := by
    simp
  rw [h2, List.append_nil]
  exact List.filter_eq_self.mpr (fun p hp => (List.mem_filter.mp hp).2)

/-- C10: restoring a snapshot table with zero rows returns nil, issues no
`ApplyBulk` call at all (the final flush is guarded by a non-empty batch), and
counts zero restored rows. -/
theorem restore_empty_table (fmtTs : Int → String)
    (apply : List String → List Mut → List (Option String) × Option String) :
    restoreTable fmtTs apply [] = ⟨none, [], 0⟩ := rfl

/-- C8: for a streamed item whose column identifier carries the family
qualifier (`family:column`), the snapshot row stores only the unqualified
column, never the qualified form. -/
theorem save_strips_family_qualifier (fmtTs : Int → String) (cf col : String) (it : ReadItem)
    (h : it.column = cf ++ ":" ++ col) :
    (saveRowOf fmtTs cf it).col = col ∧ (saveRowOf fmtTs cf it).col ≠ cf ++ ":" ++ col := by
  have hc : (saveRowOf fmtTs cf it).col = col := by
    simp [saveRowOf, h, goTrimPfx_append (cf ++ ":") col]
  refine ⟨hc, ?_⟩
  rw [hc]
  intro he
  have hlen := congrArg String.length he
  rw [String.length_append, String.length_append] at hlen
  have : (":" : String).length = 1 := rfl
  omega

theorem save_strips_family_qualifier_witness :
    ((⟨"r", "cf1:mycolumn", 0, []⟩ : ReadItem).column = "cf1" ++ ":" ++ "mycolumn") ∧
      (saveRowOf (fun _ => "") "cf1" ⟨"r", "cf1:mycolumn", 0, []⟩).col = "mycolumn" ∧
      (saveRowOf (fun _ => "") "cf1" ⟨"r", "cf1:mycolumn", 0, []⟩).col ≠ "cf1" ++ ":" ++ "mycolumn" :=
  ⟨by decide,
    (save_strips_family_qualifier (fun _ => "") "cf1" "mycolumn" ⟨"r", "cf1:mycolumn", 0, []⟩
      (by decide)).1,
    (save_strips_family_qualifier (fun _ => "") "cf1" "mycolumn" ⟨"r", "cf1:mycolumn", 0, []⟩
      (by decide)).2⟩

/-- C2: the code does not hash the string fields as raw bytes.  Both pipelines
write them with `fmt.Fprintf(hasher, s)`, so the field is interpreted as a
format string: for the row key `"%d"` the hasher is fed `"%!d(MISSING)"`, the
hashed byte stream differs from the raw-byte stream the spec describes, and
the checksums of two cells with the distinct row keys `"%d"` and `"%+d"`
collide (both expand to `"%!d(MISSING)"`).  On `%`-free fields the two
streams agree. -/
theorem checksum_not_raw_bytes :
    goFmtNoArgs "%d" = "%!d(MISSING)" ∧
    checksumInput (fun _ => "") "%d" "cf" "col" [0] 0 ≠
      checksumInputSpec (fun _ => "") "%d" "cf" "col" [0] 0 ∧
    checksumInput (fun _ => "") "key" "cf" "col" [0] 0 =
      checksumInputSpec (fun _ => "") "key" "cf" "col" [0] 0 ∧
    (("%d" : String) ≠ "%+d" ∧
      computeChecksum (fun _ => "") "%d" "cf" "col" [0] 0 =
        computeChecksum (fun _ => "") "%+d" "cf" "col" [0] 0) := by
  refine ⟨by decide, by decide, by decide, by decide, by decide⟩

theorem restoreGo_clean (fmtTs : Int → String)
    (apply : List String → List Mut → List (Option String) × Option String)
    (ha : ∀ k m, apply k m = ([], none)) :
    ∀ (rows : List SnapRow) (keys : List String) (muts : List Mut) (c : Nat)
      (acc : List (List String × List Mut)),
      (∀ r ∈ rows, r.chk = rowChecksum fmtTs r) → muts.length < 100 →
      restoreGo fmtTs apply rows keys muts c acc =
        ⟨none,
          acc ++ (accumBatches keys muts rows).1 ++
            (if 0 < (accumBatches keys muts rows).2.2.length
              then [(accumBatches keys muts rows).2] else []),
          c + rows.length⟩ := by
  intro rows
  induction rows with
  | nil =>
    intro keys muts c acc _ _
    simp only [restoreGo, accumBatches]
    by_cases h : 0 < muts.length
    · rw [if_pos h, ha keys muts]
      simp [filterErrors, h]
    · rw [if_neg h]
      simp [h]
  | cons r rest ih =>
    intro keys muts c acc hv hm
    have hr : r.chk = rowChecksum fmtTs r := hv r (List.mem_cons_self r rest)
    have hrest : ∀ x ∈ rest, x.chk = rowChecksum fmtTs x :=
      fun x hx => hv x (List.mem_cons_of_mem r hx)
    simp only [restoreGo, accumBatches]
    rw [if_pos hr]
    by_cases h100 : (muts ++ [mutOfRow r]).length = 100
    · rw [if_pos h100, if_pos h100, ha]
      simp only [filterErrors]
      rw [ih [] [] (c + 1) (acc ++ [(keys ++ [r.key], muts ++ [mutOfRow r])]) hrest
        (by simp)]
      simp only [RTResult.mk.injEq, List.length_cons]
      refine ⟨trivial, by simp [List.append_assoc], by omega⟩
    · rw [if_neg h100, if_neg h100]
      rw [ih (keys ++ [r.key]) (muts ++ [mutOfRow r]) (c + 1) acc hrest
        (by simp at h100 ⊢; omega)]
      simp only [RTResult.mk.injEq, List.length_cons]
      refine ⟨trivial, trivial, by omega⟩

theorem accumBatches_len :
    ∀ (rows : List SnapRow) (keys : List String) (muts : List Mut), muts.length < 100 →
      (accumBatches keys muts rows).1.length = (muts.length + rows.length) / 100 ∧
      (accumBatches keys muts rows).2.2.length = (muts.length + rows.length) % 100 := by
  intro rows
  induction rows with
  | nil =>
    intro keys muts hm
    simp [accumBatches, Nat.div_eq_of_lt hm, Nat.mod_eq_of_lt hm]
  | cons r rest ih =>
    intro keys muts hm
    simp only [accumBatches]
    by_cases h100 : (muts ++ [mutOfRow r]).length = 100
    · rw [if_pos h100]
      obtain ⟨h1, h2⟩ := ih [] [] (by simp)
      have hm99 : muts.length = 99 := by simp at h100; omega
      have harg : muts.length + (r :: rest).length = rest.length + 100 := by
        simp [List.length_cons]; omega
      rw [harg]
      constructor
      · simp only [List.length_cons, h1, List.length_nil, Nat.zero_add,
          Nat.add_div_right _ (by norm_num : 0 < 100)]
      · simpa [Nat.add_mod_right] using h2
    · rw [if_neg h100]
      have hlt : (muts ++ [mutOfRow r]).length < 100 := by simp at h100 ⊢; omega
      obtain ⟨h1, h2⟩ := ih (keys ++ [r.key]) (muts ++ [mutOfRow r]) hlt
      have harg : (muts ++ [mutOfRow r]).length + rest.length = muts.length + (r :: rest).length := by
        simp; omega
      rw [harg] at h1 h2
      exact ⟨h1, h2⟩

theorem accumBatches_flat :
    ∀ (rows : List SnapRow) (keys : List String) (muts : List Mut),
      keys.length = muts.length →
      (flatPairs (accumBatches keys muts rows).1 ++
        ((accumBatches keys muts rows).2.1.zip (accumBatches keys muts rows).2.2) =
        keys.zip muts ++ rows.map (fun r => (r.key, mutOfRow r))) ∧
      (accumBatches keys muts rows).2.1.length = (accumBatches keys muts rows).2.2.length := by
  intro rows
  induction rows with
  | nil =>
    intro keys muts hk
    simp [accumBatches, flatPairs, hk]
  | cons r rest ih =>
    intro keys muts hk
    simp only [accumBatches]
    have hz : (keys ++ [r.key]).zip (muts ++ [mutOfRow r]) =
        keys.zip muts ++ [(r.key, mutOfRow r)] := by
      rw [List.zip_append hk]
      simp
    by_cases h100 : (muts ++ [mutOfRow r]).length = 100
    · rw [if_pos h100]
      obtain ⟨h1, h2⟩ := ih [] [] rfl
      constructor
      · simp only [flatPairs, List.foldr_cons]
        have : flatPairs (accumBatches [] [] rest).1 = List.foldr
            (fun b acc => b.1.zip b.2 ++ acc) [] (accumBatches [] [] rest).1 := rfl
        rw [← this]
        calc ((keys ++ [r.key]).zip (muts ++ [mutOfRow r]) ++
                flatPairs (accumBatches [] [] rest).1) ++
              ((accumBatches [] [] rest).2.1.zip (accumBatches [] [] rest).2.2)
            = (keys ++ [r.key]).zip (muts ++ [mutOfRow r]) ++
              (flatPairs (accumBatches [] [] rest).1 ++
                ((accumBatches [] [] rest).2.1.zip (accumBatches [] [] rest).2.2)) := by
              rw [List.append_assoc]
          _ = (keys.zip muts ++ [(r.key, mutOfRow r)]) ++
              rest.map (fun x => (x.key, mutOfRow x)) := by rw [hz, h1]; simp
          _ = keys.zip muts ++ (r :: rest).map (fun x => (x.key, mutOfRow x)) := by
              simp [List.append_assoc]
      · exact h2
    · rw [if_neg h100]
      obtain ⟨h1, h2⟩ := ih (keys ++ [r.key]) (muts ++ [mutOfRow r]) (by simp [hk])
      constructor
      · rw [h1, hz]
        simp [List.append_assoc]
      · exact h2

/-- C4: on a snapshot of all-verified rows with a clean remote store,
`RestoreTable` succeeds and issues exactly `n / 100` bulk-apply calls (one
per full batch of 100) plus one final call for a non-empty remainder — so
99, 100 and 101 rows give 1, 1 and 2 calls respectively. -/
theorem restore_batch_boundary (fmtTs : Int → String)
    (apply : List String → List Mut → List (Option String) × Option String)
    (rows : List SnapRow)
    (hv : ∀ r ∈ rows, r.chk = rowChecksum fmtTs r)
    (ha : ∀ k m, apply k m = ([], none)) :
    (restoreTable fmtTs apply rows).err = none ∧
    (restoreTable fmtTs apply rows).calls.length =
      rows.length / 100 + (if rows.length % 100 = 0 then 0 else 1) ∧
    (restoreTable fmtTs apply rows).count = rows.length := by
  rw [restoreTable, restoreGo_clean fmtTs apply ha rows [] [] 0 [] hv (by simp)]
  obtain ⟨hlen, hmod⟩ := accumBatches_len rows [] [] (by simp)
  simp only [List.length_nil, Nat.zero_add] at hlen hmod
  refine ⟨rfl, ?_, by simp⟩
  simp only [List.nil_append, List.length_append, hlen]
  by_cases h : rows.length % 100 = 0
  · rw [if_neg (by rw [hmod, h]; omega), if_pos h]
    simp
  · rw [if_pos (by rw [hmod]; omega), if_neg h]
    simp

theorem restore_batch_boundary_witness :
    (∀ r ∈ List.replicate 101 (⟨"", "", "", [], 0, 2166136261⟩ : SnapRow),
      r.chk = rowChecksum (fun _ => "") r) ∧
    (restoreTable (fun _ => "") (fun _ _ => ([], none))
      (List.replicate 99 (⟨"", "", "", [], 0, 2166136261⟩ : SnapRow))).err = none ∧
    (restoreTable (fun _ => "") (fun _ _ => ([], none))
      (List.replicate 99 (⟨"", "", "", [], 0, 2166136261⟩ : SnapRow))).calls.length = 1 ∧
    (restoreTable (fun _ => "") (fun _ _ => ([], none))
      (List.replicate 100 (⟨"", "", "", [], 0, 2166136261⟩ : SnapRow))).calls.length = 1 ∧
    (restoreTable (fun _ => "") (fun _ _ => ([], none))
      (List.replicate 101 (⟨"", "", "", [], 0, 2166136261⟩ : SnapRow))).calls.length = 2 := by
  refine ⟨by decide, ?_, ?_, ?_, ?_⟩
  · exact (restore_batch_boundary (fun _ => "") (fun _ _ => ([], none)) _
      (by decide) (fun _ _ => rfl)).1
  · rw [(restore_batch_boundary (fun _ => "") (fun _ _ => ([], none)) _
      (by decide) (fun _ _ => rfl)).2.1]
    decide
  · rw [(restore_batch_boundary (fun _ => "") (fun _ _ => ([], none)) _
      (by decide) (fun _ _ => rfl)).2.1]
    decide
  · rw [(restore_batch_boundary (fun _ => "") (fun _ _ => ([], none)) _
      (by decide) (fun _ _ => rfl)).2.1]
    decide

theorem restoreGo_abort (fmtTs : Int → String)
    (apply : List String → List Mut → List (Option String) × Option String)
    (ha : ∀ k m, apply k m = ([], none)) (bad : SnapRow) (post : List SnapRow)
    (hbad : bad.chk ≠ rowChecksum fmtTs bad) :
    ∀ (pre : List SnapRow) (keys : List String) (muts : List Mut) (c : Nat)
      (acc : List (List String × List Mut)),
      (∀ r ∈ pre, r.chk = rowChecksum fmtTs r) → muts.length < 100 →
      restoreGo fmtTs apply (pre ++ bad :: post) keys muts c acc =
        ⟨some (integrityErr bad.chk (rowChecksum fmtTs bad)),
          acc ++ (accumBatches keys muts pre).1, c + pre.length⟩ := by
  intro pre
  induction pre with
  | nil =>
    intro keys muts c acc _ _
    simp only [List.nil_append, restoreGo, accumBatches]
    rw [if_neg hbad]
    simp
  | cons r rest ih =>
    intro keys muts c acc hv hm
    have hr : r.chk = rowChecksum fmtTs r := hv r (List.mem_cons_self r rest)
    have hrest : ∀ x ∈ rest, x.chk = rowChecksum fmtTs x :=
      fun x hx => hv x (List.mem_cons_of_mem r hx)
    simp only [List.cons_append, restoreGo, accumBatches, List.append_eq]
    rw [if_pos hr]
    by_cases h100 : (muts ++ [mutOfRow r]).length = 100
    · rw [if_pos h100, if_pos h100, ha]
      simp only [filterErrors]
      rw [ih [] [] (c + 1) (acc ++ [(keys ++ [r.key], muts ++ [mutOfRow r])]) hrest
        (by simp)]
      simp only [RTResult.mk.injEq, List.length_cons]
      refine ⟨trivial, by simp [List.append_assoc], by omega⟩
    · rw [if_neg h100, if_neg h100]
      rw [ih (keys ++ [r.key]) (muts ++ [mutOfRow r]) (c + 1) acc hrest
        (by simp at h100 ⊢; omega)]
      simp only [RTResult.mk.injEq, List.length_cons]
      refine ⟨trivial, trivial, by omega⟩

/-- C5: if a snapshot row's stored checksum differs from the recomputed one,
`RestoreTable` aborts at that row with the checksum-mismatch error carrying
both the stored and the recomputed value; the corrupted row is never part of
a bulk-apply call — the keys written across all issued calls form a prefix of
the keys of the rows before the corrupted one (only the full 100-batches
among them), and nothing at or after the corrupted row is written. -/
theorem restore_checksum_abort (fmtTs : Int → String)
    (apply : List String → List Mut → List (Option String) × Option String)
    (pre post : List SnapRow) (bad : SnapRow)
    (hv : ∀ r ∈ pre, r.chk = rowChecksum fmtTs r)
    (hbad : bad.chk ≠ rowChecksum fmtTs bad)
    (ha : ∀ k m, apply k m = ([], none)) :
    (restoreTable fmtTs apply (pre ++ bad :: post)).err =
      some (integrityErr bad.chk (rowChecksum fmtTs bad)) ∧
    (flatPairs (restoreTable fmtTs apply (pre ++ bad :: post)).calls).map Prod.fst <+:
      pre.map (fun r => r.key) ∧
    (restoreTable fmtTs apply (pre ++ bad :: post)).calls.length = pre.length / 100 ∧
    (restoreTable fmtTs apply (pre ++ bad :: post)).count = pre.length := by
  rw [restoreTable, restoreGo_abort fmtTs apply ha bad post hbad pre [] [] 0 [] hv (by simp)]
  refine ⟨rfl, ?_, ?_, by simp⟩
  · obtain ⟨hflat, _⟩ := accumBatches_flat pre [] [] rfl
    simp only [List.zip_nil_left, List.nil_append] at hflat
    have hpre : flatPairs (accumBatches [] [] pre).1 <+:
        pre.map (fun r => (r.key, mutOfRow r)) := ⟨_, hflat⟩
    have hmap := hpre.map Prod.fst
    simpa [List.map_map, Function.comp] using hmap
  · obtain ⟨h1, _⟩ := accumBatches_len pre [] [] (by simp)
    simpa using h1

theorem restore_checksum_abort_witness :
    (∀ r ∈ [(⟨"a", "cf", "c", [], 0, computeChecksum (fun _ => "") "a" "cf" "c" [] 0⟩ : SnapRow)],
      r.chk = rowChecksum (fun _ => "") r) ∧
    ((⟨"b", "cf", "c", [2], 0, 0⟩ : SnapRow).chk ≠
      rowChecksum (fun _ => "") ⟨"b", "cf", "c", [2], 0, 0⟩) ∧
    ((restoreTable (fun _ => "") (fun _ _ => ([], none))
        ([⟨"a", "cf", "c", [], 0, computeChecksum (fun _ => "") "a" "cf" "c" [] 0⟩] ++
          (⟨"b", "cf", "c", [2], 0, 0⟩ : SnapRow) :: [⟨"p", "cf", "c", [], 0, 0⟩])).err =
      some (integrityErr (⟨"b", "cf", "c", [2], 0, 0⟩ : SnapRow).chk
        (rowChecksum (fun _ => "") ⟨"b", "cf", "c", [2], 0, 0⟩)) ∧
    (flatPairs (restoreTable (fun _ => "") (fun _ _ => ([], none))
        ([⟨"a", "cf", "c", [], 0, computeChecksum (fun _ => "") "a" "cf" "c" [] 0⟩] ++
          (⟨"b", "cf", "c", [2], 0, 0⟩ : SnapRow) :: [⟨"p", "cf", "c", [], 0, 0⟩])).calls).map
        Prod.fst <+:
      [(⟨"a", "cf", "c", [], 0, computeChecksum (fun _ => "") "a" "cf" "c" [] 0⟩ : SnapRow)].map
        (fun r => r.key) ∧
    (restoreTable (fun _ => "") (fun _ _ => ([], none))
        ([⟨"a", "cf", "c", [], 0, computeChecksum (fun _ => "") "a" "cf" "c" [] 0⟩] ++
          (⟨"b", "cf", "c", [2], 0, 0⟩ : SnapRow) :: [⟨"p", "cf", "c", [], 0, 0⟩])).calls.length =
      [(⟨"a", "cf", "c", [], 0, computeChecksum (fun _ => "") "a" "cf" "c" [] 0⟩ : SnapRow)].length / 100 ∧
    (restoreTable (fun _ => "") (fun _ _ => ([], none))
        ([⟨"a", "cf", "c", [], 0, computeChecksum (fun _ => "") "a" "cf" "c" [] 0⟩] ++
          (⟨"b", "cf", "c", [2], 0, 0⟩ : SnapRow) :: [⟨"p", "cf", "c", [], 0, 0⟩])).count =
      [(⟨"a", "cf", "c", [], 0, computeChecksum (fun _ => "") "a" "cf" "c" [] 0⟩ : SnapRow)].length) :=
  ⟨by decide, by decide,
    restore_checksum_abort (fun _ => "") (fun _ _ => ([], none))
      [⟨"a", "cf", "c", [], 0, computeChecksum (fun _ => "") "a" "cf" "c" [] 0⟩]
      [⟨"p", "cf", "c", [], 0, 0⟩] ⟨"b", "cf", "c", [2], 0, 0⟩
      (by decide) (by decide) (fun _ _ => rfl)⟩

theorem restoreGo_single_flush (fmtTs : Int → String)
    (es : List (Option String)) (oe : Option String) :
    ∀ (rows : List SnapRow) (keys : List String) (muts : List Mut) (c : Nat)
      (acc : List (List String × List Mut)),
      (∀ r ∈ rows, r.chk = rowChecksum fmtTs r) →
      muts.length < 100 → 0 < muts.length + rows.length →
      muts.length + rows.length ≤ 100 →
      ((∀ e, oe = some e →
          (restoreGo fmtTs (fun _ _ => (es, oe)) rows keys muts c acc).err =
            some (applyCallErr e)) ∧
        (oe = none → ∀ e0 erest, filterErrors es = e0 :: erest →
          (restoreGo fmtTs (fun _ _ => (es, oe)) rows keys muts c acc).err =
            some (bulkWriteErr (e0 :: erest)))) := by
  intro rows
  induction rows with
  | nil =>
    intro keys muts c acc _ _ h0 _
    simp only [restoreGo]
    rw [if_pos (by simpa using h0)]
    constructor
    · intro e he
      subst he
      simp
    · intro hoe e0 erest hf
      subst hoe
      simp [hf]
  | cons r rest ih =>
    intro keys muts c acc hv hm h0 hle
    have hr : r.chk = rowChecksum fmtTs r := hv r (List.mem_cons_self r rest)
    have hrest : ∀ x ∈ rest, x.chk = rowChecksum fmtTs x :=
      fun x hx => hv x (List.mem_cons_of_mem r hx)
    simp only [restoreGo, List.append_eq]
    rw [if_pos hr]
    by_cases h100 : (muts ++ [mutOfRow r]).length = 100
    · rw [if_pos h100]
      constructor
      · intro e he
        subst he
        simp
      · intro hoe e0 erest hf
        subst hoe
        simp [hf]
    · rw [if_neg h100]
      exact ih (keys ++ [r.key]) (muts ++ [mutOfRow r]) (c + 1) acc hrest
        (by simp at h100 ⊢; omega) (by simp)
        (by simp [List.length_cons] at hle ⊢; omega)

/-- C6 (amended): on a bulk-write call during restore, a call-level error
aborts the table's restore with that error; per-item errors abort it with an
error that surfaces the NUMBER of failing items and the FIRST failing item's
message — the failing item's index and key are not part of the error. -/
theorem restore_bulk_error_surfaced (fmtTs : Int → String) (rows : List SnapRow)
    (es : List (Option String)) (oe : Option String)
    (hv : ∀ r ∈ rows, r.chk = rowChecksum fmtTs r)
    (h0 : 0 < rows.length) (hle : rows.length ≤ 100) :
    (∀ e, oe = some e →
      (restoreTable fmtTs (fun _ _ => (es, oe)) rows).err = some (applyCallErr e)) ∧
    (oe = none → ∀ e0 erest, filterErrors es = e0 :: erest →
      (restoreTable fmtTs (fun _ _ => (es, oe)) rows).err =
        some (bulkWriteErr (e0 :: erest))) ∧
    (∀ (e0 : String) (erest : List String), bulkWriteErr (e0 :: erest) =
      "failed to write to bigtable, " ++ toString (erest.length + 1) ++
        " errors, first: " ++ e0) := by
  have h := restoreGo_single_flush fmtTs es oe rows [] [] 0 [] hv (by simp)
    (by simpa using h0) (by simpa using hle)
  exact ⟨h.1, h.2, fun e0 erest => by simp [bulkWriteErr]⟩

/-- C6 counterexample: two restore runs that differ only in which item of the
bulk-apply call failed (index 0 with key "k1" versus index 1 with key "k2",
same message) return the identical error, and that error is the literal
string carrying only the error count and first message — so the claim that
the error surfaces the failing item's index/key is false. -/
theorem restore_item_error_no_index :
    ((restoreTable (fun _ => "") (fun _ _ => ([some "boom", none], none))
        [⟨"k1", "cf", "c", [], 0, computeChecksum (fun _ => "") "k1" "cf" "c" [] 0⟩,
          ⟨"k2", "cf", "c", [], 0, computeChecksum (fun _ => "") "k2" "cf" "c" [] 0⟩]).err =
      (restoreTable (fun _ => "") (fun _ _ => ([none, some "boom"], none))
        [⟨"k1", "cf", "c", [], 0, computeChecksum (fun _ => "") "k1" "cf" "c" [] 0⟩,
          ⟨"k2", "cf", "c", [], 0, computeChecksum (fun _ => "") "k2" "cf" "c" [] 0⟩]).err) ∧
    (restoreTable (fun _ => "") (fun _ _ => ([some "boom", none], none))
        [⟨"k1", "cf", "c", [], 0, computeChecksum (fun _ => "") "k1" "cf" "c" [] 0⟩,
          ⟨"k2", "cf", "c", [], 0, computeChecksum (fun _ => "") "k2" "cf" "c" [] 0⟩]).err =
      some "failed to write to bigtable, 1 errors, first: boom" := by
  exact ⟨by decide, by decide⟩

theorem restore_bulk_error_surfaced_witness :
    (0 < ([(⟨"k1", "cf", "c", [], 0,
        computeChecksum (fun _ => "") "k1" "cf" "c" [] 0⟩ : SnapRow)] : List SnapRow).length) ∧
    (restoreTable (fun _ => "") (fun _ _ => ([none, some "x"], none))
        [⟨"k1", "cf", "c", [], 0, computeChecksum (fun _ => "") "k1" "cf" "c" [] 0⟩]).err =
      some (bulkWriteErr ["x"]) :=
  ⟨by decide,
    (restore_bulk_error_surfaced (fun _ => "")
        [⟨"k1", "cf", "c", [], 0, computeChecksum (fun _ => "") "k1" "cf" "c" [] 0⟩]
        [none, some "x"] none (by decide) (by decide) (by decide)).2.1 rfl "x" [] rfl⟩

theorem flatPairs_append (l1 l2 : List (List String × List Mut)) :
    flatPairs (l1 ++ l2) = flatPairs l1 ++ flatPairs l2 := by
  induction l1 with
  | nil => simp [flatPairs]
  | cons b l ih =>
    simp only [List.cons_append, flatPairs, List.foldr_cons] at ih ⊢
    rw [ih]
    simp [List.append_assoc]

theorem restore_clean_writes (fmtTs : Int → String)
    (apply : List String → List Mut → List (Option String) × Option String)
    (ha : ∀ k m, apply k m = ([], none)) (rows : List SnapRow)
    (hv : ∀ r ∈ rows, r.chk = rowChecksum fmtTs r) :
    (restoreTable fmtTs apply rows).err = none ∧
    flatPairs (restoreTable fmtTs apply rows).calls =
      rows.map (fun r => (r.key, mutOfRow r)) := by
  rw [restoreTable, restoreGo_clean fmtTs apply ha rows [] [] 0 [] hv (by simp)]
  refine ⟨rfl, ?_⟩
  obtain ⟨hflat, hlen⟩ := accumBatches_flat rows [] [] rfl
  simp only [List.zip_nil_left, List.nil_append] at hflat
  by_cases h : 0 < (accumBatches [] [] rows).2.2.length
  · rw [if_pos h]
    show flatPairs ([] ++ (accumBatches [] [] rows).1 ++ [(accumBatches [] [] rows).2]) = _
    rw [List.nil_append, flatPairs_append]
    simpa [flatPairs] using hflat
  · rw [if_neg h]
    have h22 : (accumBatches [] [] rows).2.2 = [] :=
      List.eq_nil_of_length_eq_zero (by omega)
    rw [h22, List.zip_nil_right, List.append_nil] at hflat
    show flatPairs ([] ++ (accumBatches [] [] rows).1 ++ []) = _
    rw [List.nil_append, List.append_nil]
    exact hflat

/-- C1: round trip — saving the cells of a remote table and restoring the
resulting snapshot into an empty remote store with a clean bulk-apply
reproduces exactly the original cells, as `(rowKey, family, column, value,
timestamp)` tuples, for any non-empty cell list (zero bytes and empty values
included). -/
theorem bt2disk_round_trip (fmtTs : Int → String)
    (apply : List String → List Mut → List (Option String) × Option String)
    (cells : List Cell) (_hne : cells ≠ [])
    (ha : ∀ k m, apply k m = ([], none)) :
    (restoreTable fmtTs apply (saveRows fmtTs (cells.map itemOfCell))).err = none ∧
    writtenCells (restoreTable fmtTs apply (saveRows fmtTs (cells.map itemOfCell))).calls =
      cells := by
  have hsnap : saveRows fmtTs (cells.map itemOfCell) =
      cells.map (fun c => (⟨c.rowKey, c.family, c.column, c.value, c.ts * 1000,
        computeChecksum fmtTs c.rowKey c.family c.column c.value (c.ts * 1000)⟩ : SnapRow)) := by
    unfold saveRows
    rw [List.map_map]
    exact List.map_congr_left (fun c _ => saveRowOf_itemOfCell fmtTs c)
  have hv : ∀ r ∈ saveRows fmtTs (cells.map itemOfCell), r.chk = rowChecksum fmtTs r := by
    rw [hsnap]
    intro r hr
    obtain ⟨c, _, rfl⟩ := List.mem_map.mp hr
    rfl
  obtain ⟨herr, hflat⟩ := restore_clean_writes fmtTs apply ha _ hv
  refine ⟨herr, ?_⟩
  simp only [writtenCells]
  rw [hflat, hsnap]
  rw [List.map_map, List.map_map]
  have hid : ∀ c ∈ cells, (((fun p => (⟨p.1, p.2.cf, p.2.col, p.2.value, p.2.ts⟩ : Cell)) ∘
      (fun r => (r.key, mutOfRow r))) ∘
      (fun c => (⟨c.rowKey, c.family, c.column, c.value, c.ts * 1000,
        computeChecksum fmtTs c.rowKey c.family c.column c.value (c.ts * 1000)⟩ : SnapRow))) c
        = c := by
    intro c _
    cases c with
    | mk rk fam col v t =>
      simp only [Function.comp_apply, mutOfRow]
      rw [Int.mul_tdiv_cancel _ (by norm_num : (1000 : Int) ≠ 0)]
  calc cells.map _ = cells.map id := List.map_congr_left hid
    _ = cells := List.map_id cells

theorem bt2disk_round_trip_witness :
    (([(⟨"k1", "cf", "col", [0, 255, 0], 5⟩ : Cell), ⟨"k2", "cf", "", [], 0⟩] : List Cell) ≠ []) ∧
    (restoreTable (fun _ => "") (fun _ _ => ([], none))
        (saveRows (fun _ => "")
          (([(⟨"k1", "cf", "col", [0, 255, 0], 5⟩ : Cell), ⟨"k2", "cf", "", [], 0⟩]).map
            itemOfCell))).err = none ∧
    writtenCells (restoreTable (fun _ => "") (fun _ _ => ([], none))
        (saveRows (fun _ => "")
          (([(⟨"k1", "cf", "col", [0, 255, 0], 5⟩ : Cell), ⟨"k2", "cf", "", [], 0⟩]).map
            itemOfCell))).calls =
      [(⟨"k1", "cf", "col", [0, 255, 0], 5⟩ : Cell), ⟨"k2", "cf", "", [], 0⟩] :=
  ⟨by decide,
    (bt2disk_round_trip (fun _ => "") (fun _ _ => ([], none))
      [⟨"k1", "cf", "col", [0, 255, 0], 5⟩, ⟨"k2", "cf", "", [], 0⟩]
      (by decide) (fun _ _ => rfl)).1,
    (bt2disk_round_trip (fun _ => "") (fun _ _ => ([], none))
      [⟨"k1", "cf", "col", [0, 255, 0], 5⟩, ⟨"k2", "cf", "", [], 0⟩]
      (by decide) (fun _ _ => rfl)).2⟩

theorem saveAll_trace_aux (fmtTs : Int → String)
    (streams : String → List (String × ReadItem)) :
    ∀ (l : List String) (db : SnapDB) (tr : List Ev),
      (l.foldl (fun st t => (saveTable fmtTs st.1 t (streams t), st.2 ++ [Ev.saveT t]))
        (db, tr)).2 = tr ++ l.map Ev.saveT := by
  intro l
  induction l with
  | nil => intro db tr; simp
  | cons t ts ih =>
    intro db tr
    rw [List.foldl_cons, ih]
    simp

theorem dropPhase_none_trace (dropRes : String → Option String) :
    ∀ (l : List String) (tr : List Ev), dropPhase dropRes l = (none, tr) →
      tr = l.map Ev.dropAll := by
  intro l
  induction l with
  | nil =>
    intro tr h
    simp only [dropPhase, Prod.mk.injEq] at h
    simp [h.2.symm]
  | cons t ts ih =>
    intro tr h
    simp only [dropPhase] at h
    cases hd : dropRes t with
    | some e => rw [hd] at h; simp at h
    | none =>
      rw [hd] at h
      simp only [Prod.mk.injEq] at h
      have h1 : (dropPhase dropRes ts).1 = none := h.1
      have h2 : Ev.dropAll t :: (dropPhase dropRes ts).2 = tr := h.2
      have hrec := ih (dropPhase dropRes ts).2 (by rw [← h1])
      rw [← h2, hrec]
      simp

theorem dropPhase_all_drops (dropRes : String → Option String) :
    ∀ (l : List String) (ev : Ev), ev ∈ (dropPhase dropRes l).2 → isDropEv ev = true := by
  intro l
  induction l with
  | nil => intro ev h; simp [dropPhase] at h
  | cons t ts ih =>
    intro ev h
    simp only [dropPhase] at h
    cases hd : dropRes t with
    | some e => rw [hd] at h; simp at h
    | none =>
      rw [hd] at h
      rcases List.mem_cons.mp h with h1 | h2
      · rw [h1]; rfl
      · exact ih ev h2

theorem dropPhase_all_none (dropRes : String → Option String)
    (hd : ∀ t, dropRes t = none) :
    ∀ l : List String, dropPhase dropRes l = (none, l.map Ev.dropAll) := by
  intro l
  induction l with
  | nil => rfl
  | cons t ts ih => simp only [dropPhase, hd t, ih, List.map_cons]

theorem restoreRun_trace (fmtTs : Int → String) (remoteTables : List String)
    (snap : SnapDB) (dropRes : String → Option String)
    (apply : String → List String → List Mut → List (Option String) × Option String) :
    (restoreRun fmtTs remoteTables snap dropRes apply).2 =
      (dropPhase dropRes (sortStrings remoteTables)).2 ++
        (if (dropPhase dropRes (sortStrings remoteTables)).1 = none
          then (restorePhase fmtTs apply snap).2 else []) := by
  unfold restoreRun
  rcases h : dropPhase dropRes (sortStrings remoteTables) with ⟨o, tr⟩
  cases o <;> simp

theorem filter_map_const {α : Type} (p : Ev → Bool) (e : Ev) (he : p e = false)
    (l : List α) : (l.map (fun _ => e)).filter p = [] := by
  induction l with
  | nil => rfl
  | cons a l ih => simp [he, ih]

theorem restorePhase_clean (fmtTs : Int → String)
    (apply : String → List String → List Mut → List (Option String) × Option String)
    (ha : ∀ t k m, apply t k m = ([], none)) :
    ∀ snap : List (String × List SnapRow),
      (∀ p ∈ snap, ∀ r ∈ p.2, r.chk = rowChecksum fmtTs r) →
      ((restorePhase fmtTs apply snap).2.filter isRestoreEv =
        snap.map (fun p => Ev.restoreT p.1) ∧
      (restorePhase fmtTs apply snap).2.filter isDropEv = []) := by
  intro snap
  induction snap with
  | nil => intro _; constructor <;> rfl
  | cons p rest ih =>
    intro hv
    obtain ⟨t, rows⟩ := p
    have hvrows : ∀ r ∈ rows, r.chk = rowChecksum fmtTs r :=
      hv (t, rows) (List.mem_cons_self _ _)
    have herr : (restoreTable fmtTs (apply t) rows).err = none := by
      rw [restoreTable, restoreGo_clean fmtTs (apply t) (ha t) rows [] [] 0 [] hvrows (by simp)]
    obtain ⟨ih1, ih2⟩ := ih (fun q hq => hv q (List.mem_cons_of_mem _ hq))
    simp only [restorePhase]
    rw [herr]
    constructor
    · simp only [List.cons_append, List.filter_cons, List.filter_append]
      rw [filter_map_const isRestoreEv (Ev.bulk t) rfl, ih1]
      simp [isRestoreEv]
    · simp only [List.cons_append, List.filter_cons, List.filter_append]
      rw [filter_map_const isDropEv (Ev.bulk t) rfl, ih2]
      simp [isDropEv]

theorem mem_insertSorted (x a : String) :
    ∀ l : List String, a ∈ insertSorted x l ↔ a = x ∨ a ∈ l := by
  intro l
  induction l with
  | nil => simp [insertSorted]
  | cons y ys ih =>
    by_cases h : strLe x y
    · simp [insertSorted, h]
    · simp only [insertSorted, if_neg h, List.mem_cons, ih]
      tauto

theorem mem_sortStrings (a : String) : ∀ l : List String, a ∈ sortStrings l ↔ a ∈ l := by
  intro l
  induction l with
  | nil => simp [sortStrings]
  | cons x xs ih =>
    simp only [sortStrings, mem_insertSorted, ih, List.mem_cons]

theorem getElem?_some_mem {α : Type} (l : List α) (i : Nat) (a : α)
    (h : l[i]? = some a) : a ∈ l := by
  obtain ⟨hl, he⟩ := List.getElem?_eq_some.mp h
  exact he ▸ List.getElem_mem hl

/-- C9: during a restore run, every remote table in the store's listing is
destructively cleared before any bulk-write call of the run: any `ApplyBulk`
event against a listed table `t` is preceded in the run's event trace by the
`DropAllRows` event for `t`. -/
theorem restore_clear_before_write (fmtTs : Int → String) (remoteTables : List String)
    (snap : SnapDB) (dropRes : String → Option String)
    (apply : String → List String → List Mut → List (Option String) × Option String)
    (t : String) (i : Nat) (ht : t ∈ remoteTables)
    (hi : (restoreRun fmtTs remoteTables snap dropRes apply).2[i]? = some (Ev.bulk t)) :
    ∃ j, j < i ∧
      (restoreRun fmtTs remoteTables snap dropRes apply).2[j]? = some (Ev.dropAll t) := by
  rw [restoreRun_trace] at hi ⊢
  by_cases hnone : (dropPhase dropRes (sortStrings remoteTables)).1 = none
  · rw [if_pos hnone] at hi ⊢
    have htr : (dropPhase dropRes (sortStrings remoteTables)).2 =
        (sortStrings remoteTables).map Ev.dropAll :=
      dropPhase_none_trace dropRes (sortStrings remoteTables) _ (by rw [← hnone])
    have hts : t ∈ sortStrings remoteTables := (mem_sortStrings t remoteTables).mpr ht
    obtain ⟨j, hj, hget⟩ := List.getElem_of_mem hts
    have hjlt : j < (dropPhase dropRes (sortStrings remoteTables)).2.length := by
      rw [htr]; simpa using hj
    have hlen : (dropPhase dropRes (sortStrings remoteTables)).2.length ≤ i := by
      by_contra hcon
      push_neg at hcon
      rw [List.getElem?_append_left hcon, htr, List.getElem?_map,
        List.getElem?_eq_getElem (by rw [htr] at hcon; simpa using hcon)] at hi
      simp at hi
    refine ⟨j, by omega, ?_⟩
    rw [List.getElem?_append_left hjlt, htr, List.getElem?_map,
      List.getElem?_eq_getElem hj]
    simp [hget]
  · rw [if_neg hnone, List.append_nil] at hi
    exfalso
    have hmem : Ev.bulk t ∈ (dropPhase dropRes (sortStrings remoteTables)).2 :=
      getElem?_some_mem _ i _ hi
    have := dropPhase_all_drops dropRes (sortStrings remoteTables) _ hmem
    simp [isDropEv] at this

theorem restore_clear_before_write_witness :
    (("a" : String) ∈ ["a"]) ∧
    ((restoreRun (fun _ => "") ["a"]
        [("a", [⟨"k", "cf", "c", [], 0, computeChecksum (fun _ => "") "k" "cf" "c" [] 0⟩])]
        (fun _ => none) (fun _ _ _ => ([], none))).2[2]? = some (Ev.bulk "a")) ∧
    (∃ j, j < 2 ∧
      (restoreRun (fun _ => "") ["a"]
        [("a", [⟨"k", "cf", "c", [], 0, computeChecksum (fun _ => "") "k" "cf" "c" [] 0⟩])]
        (fun _ => none) (fun _ _ _ => ([], none))).2[j]? = some (Ev.dropAll "a")) :=
  ⟨by decide, by decide,
    restore_clear_before_write (fun _ => "") ["a"]
      [("a", [⟨"k", "cf", "c", [], 0, computeChecksum (fun _ => "") "k" "cf" "c" [] 0⟩])]
      (fun _ => none) (fun _ _ _ => ([], none)) "a" 2 (by decide) (by decide)⟩

/-- C3 counterexample: with remote tables `["b","a","c"]` and a snapshot
store whose native enumeration order is `["b","a","c"]`, the restore run
invokes its per-table pipeline in the order `["b","a","c"]`, not the sorted
order `["a","b","c"]` the claim states. -/
theorem restore_order_counterexample :
    ((restoreRun (fun _ => "") ["b", "a", "c"] [("b", []), ("a", []), ("c", [])]
        (fun _ => none) (fun _ _ _ => ([], none))).2.filter isRestoreEv =
      [Ev.restoreT "b", Ev.restoreT "a", Ev.restoreT "c"]) ∧
    ([Ev.restoreT "b", Ev.restoreT "a", Ev.restoreT "c"] ≠
      [Ev.restoreT "a", Ev.restoreT "b", Ev.restoreT "c"]) :=
  ⟨by decide, by decide⟩

theorem filter_restore_of_drops (l : List String) :
    (l.map Ev.dropAll).filter isRestoreEv = [] := by
  induction l with
  | nil => rfl
  | cons s l ih => simp [isRestoreEv, ih]

/-- C3 (amended): `SaveAll` invokes its per-table pipeline in
lexicographically sorted order of the remote table listing; `Restore` clears
the remote tables in lexicographically sorted order, but invokes its
per-table restore pipeline in the snapshot store's native enumeration order,
which need not be sorted. -/
theorem table_processing_order (fmtTs : Int → String) (db : SnapDB) (tables : List String)
    (streams : String → List (String × ReadItem)) (remoteTables : List String)
    (snap : SnapDB) (dropRes : String → Option String)
    (apply : String → List String → List Mut → List (Option String) × Option String)
    (hd : ∀ t, dropRes t = none)
    (hv : ∀ p ∈ snap, ∀ r ∈ p.2, r.chk = rowChecksum fmtTs r)
    (ha : ∀ t k m, apply t k m = ([], none)) :
    (saveAll fmtTs db tables streams).2 = (sortStrings tables).map Ev.saveT ∧
    (restoreRun fmtTs remoteTables snap dropRes apply).2.filter isDropEv =
      (sortStrings remoteTables).map Ev.dropAll ∧
    (restoreRun fmtTs remoteTables snap dropRes apply).2.filter isRestoreEv =
      snap.map (fun p => Ev.restoreT p.1) := by
  have hsave : (saveAll fmtTs db tables streams).2 = (sortStrings tables).map Ev.saveT := by
    unfold saveAll
    rw [saveAll_trace_aux fmtTs streams (sortStrings tables) db []]
    simp
  have htrace := restoreRun_trace fmtTs remoteTables snap dropRes apply
  have hdp := dropPhase_all_none dropRes hd (sortStrings remoteTables)
  obtain ⟨hr1, hr2⟩ := restorePhase_clean fmtTs apply ha snap hv
  have hdrops : ((sortStrings remoteTables).map Ev.dropAll).filter isDropEv =
      (sortStrings remoteTables).map Ev.dropAll :=
    List.filter_eq_self.mpr (fun ev hev => by
      obtain ⟨s, _, rfl⟩ := List.mem_map.mp hev
      rfl)
  have hdropsR : ((sortStrings remoteTables).map Ev.dropAll).filter isRestoreEv = [] :=
    filter_restore_of_drops (sortStrings remoteTables)
  refine ⟨hsave, ?_, ?_⟩
  · rw [htrace, hdp]
    simp only [List.filter_append, if_true]
    rw [hdrops, hr2]
    simp
  · rw [htrace, hdp]
    simp only [List.filter_append, if_true]
    rw [hr1, hdropsR]
    simp

theorem table_processing_order_witness :
    (∀ t : String, (fun (_ : String) => (none : Option String)) t = none) ∧
    (saveAll (fun _ => "") [] ["b", "a", "c"] (fun _ => [])).2 =
      (sortStrings ["b", "a", "c"]).map Ev.saveT ∧
    (restoreRun (fun _ => "") ["b", "a", "c"] [("b", []), ("a", []), ("c", [])]
        (fun _ => none) (fun _ _ _ => ([], none))).2.filter isDropEv =
      (sortStrings ["b", "a", "c"]).map Ev.dropAll ∧
    (restoreRun (fun _ => "") ["b", "a", "c"] [("b", []), ("a", []), ("c", [])]
        (fun _ => none) (fun _ _ _ => ([], none))).2.filter isRestoreEv =
      [("b", ([] : List SnapRow)), ("a", []), ("c", [])].map (fun p => Ev.restoreT p.1) :=
  ⟨fun _ => rfl,
    (table_processing_order (fun _ => "") [] ["b", "a", "c"] (fun _ => [])
      ["b", "a", "c"] [("b", []), ("a", []), ("c", [])] (fun _ => none)
      (fun _ _ _ => ([], none)) (fun _ => rfl) (by decide) (fun _ _ _ => rfl)).1,
    (table_processing_order (fun _ => "") [] ["b", "a", "c"] (fun _ => [])
      ["b", "a", "c"] [("b", []), ("a", []), ("c", [])] (fun _ => none)
      (fun _ _ _ => ([], none)) (fun _ => rfl) (by decide) (fun _ _ _ => rfl)).2.1,
    (table_processing_order (fun _ => "") [] ["b", "a", "c"] (fun _ => [])
      ["b", "a", "c"] [("b", []), ("a", []), ("c", [])] (fun _ => none)
      (fun _ _ _ => ([], none)) (fun _ => rfl) (by decide) (fun _ _ _ => rfl)).2.2⟩
